import Mathlib

/-!
Verification of the siro-scraper pipeline (FDA guidance-document scraper).

The definitions below are a shallow embedding of the Python sources
`fda_optimized.py` and `fda_retry_failed.py`: strings are `String`/`List Char`,
the filesystem is an association list from paths to file sizes, and network
activity is an oracle giving the outcome of each fetch attempt.  Whitespace is
modelled by the ASCII whitespace class (the fragment of Python's `\s` and
`str.strip` relevant to the scraped data).
-/

set_option maxHeartbeats 1000000

namespace Siro

/-- ASCII fragment of Python's whitespace class (`\s`, `str.strip`). -/
def pyIsSpace (c : Char) : Bool :=
  c = ' ' || c = '\t' || c = '\n' || c = '\r' || c = '\x0b' || c = '\x0c'

/-- The forbidden path characters of `sanitize_filename`: the regex class
`[<>:"/\\|?*]`. -/
def forbiddenChar (c : Char) : Bool :=
  c = '<' || c = '>' || c = ':' || c = '"' || c = '/' || c = '\\' ||
  c = '|' || c = '?' || c = '*'

/-- Model of `re.sub(cls+, r, s)` for a character class `p`: every maximal run of
characters satisfying `p` is replaced by the single character `r`.  The
boolean argument records whether the previously scanned character was in the
class (i.e. whether we are inside a run). -/
def collapse (p : Char → Bool) (r : Char) : List Char → Bool → List Char
  | [], _ => []
  | c :: cs, prev =>
    if p c then
      if prev then collapse p r cs true else r :: collapse p r cs true
    else c :: collapse p r cs false

/-- Remove the trailing run of characters satisfying `p` (the right half of
Python's `str.strip`). -/
def dropTrailing (p : Char → Bool) : List Char → List Char
  | [] => []
  | c :: cs =>
    let rest := dropTrailing p cs
    if rest.isEmpty && p c then [] else c :: rest

/-- Python's `str.strip()` on the character list. -/
def pyStrip (l : List Char) : List Char :=
  dropTrailing pyIsSpace (l.dropWhile pyIsSpace)

/-- Definition `sanitize_filename` from `fda_optimized.py` / `fda_retry_failed.py`,
on character lists:

    name = name.strip() if name else default
    name = re.sub(r'[<>:"/\\|?*]+', "_", name)
    name = re.sub(r"\s+", " ", name)
    return name[:150].strip() or default
-/
def sanitizeChars (name dflt : List Char) : List Char :=
  let n0 := if name.isEmpty then dflt else pyStrip name
  let n1 := collapse forbiddenChar '_' n0 false
  let n2 := collapse pyIsSpace ' ' n1 false
  let n3 := pyStrip (n2.take 150)
  if n3.isEmpty then dflt else n3

/-- Function `sanitize_filename` on `String`. -/
def sanitize_filename (name : String) (dflt : String) : String :=
  ⟨sanitizeChars name.data dflt.data⟩

/-- No two adjacent characters are both whitespace: every maximal whitespace
run has length at most one ("collapsed whitespace"). -/
def noDoubleSpace : List Char → Bool
  | [] => true
  | [_] => true
  | a :: b :: rest => !(pyIsSpace a && pyIsSpace b) && noDoubleSpace (b :: rest)

/-- The head, when present, is not whitespace. -/
def headNotSpace : List Char → Bool
  | [] => true
  | c :: _ => !pyIsSpace c

/-! ### Lemmas about `collapse`, `dropTrailing`, `pyStrip` -/

theorem mem_collapse {p : Char → Bool} {r : Char} :
    ∀ {l : List Char} {prev : Bool} {c : Char},
      c ∈ collapse p r l prev → c = r ∨ (c ∈ l ∧ p c = false) := by
  intro l
  induction l with
  | nil => intro prev c h; simp [collapse] at h
  | cons a as ih =>
    intro prev c h
    by_cases hp : p a = true
    · cases prev with
      | true =>
        simp [collapse, hp] at h
        rcases ih h with h1 | ⟨h2, h3⟩
        · exact Or.inl h1
        · exact Or.inr ⟨List.mem_cons_of_mem _ h2, h3⟩
      | false =>
        simp [collapse, hp] at h
        rcases h with h | h
        · exact Or.inl h
        · rcases ih h with h1 | ⟨h2, h3⟩
          · exact Or.inl h1
          · exact Or.inr ⟨List.mem_cons_of_mem _ h2, h3⟩
    · simp [collapse, hp] at h
      rcases h with h | h
      · subst h
        exact Or.inr ⟨List.mem_cons_self _ _, by simpa using hp⟩
      · rcases ih h with h1 | ⟨h2, h3⟩
        · exact Or.inl h1
        · exact Or.inr ⟨List.mem_cons_of_mem _ h2, h3⟩

theorem length_collapse_le {p : Char → Bool} {r : Char} :
    ∀ (l : List Char) (prev : Bool), (collapse p r l prev).length ≤ l.length := by
  intro l
  induction l with
  | nil => intro prev; simp [collapse]
  | cons a as ih =>
    intro prev
    by_cases hp : p a = true
    · cases prev with
      | true =>
        simp only [collapse, hp, if_true]
        exact Nat.le_succ_of_le (ih true)
      | false =>
        simp only [collapse, hp, if_true, List.length_cons]
        exact Nat.succ_le_succ (ih true)
    · simp only [collapse, hp, if_false, Bool.false_eq_true, List.length_cons]
      exact Nat.succ_le_succ (ih false)

theorem dropTrailing_eq_nil_or_cons (p : Char → Bool) (c : Char) (cs : List Char) :
    dropTrailing p (c :: cs) = [] ∨
    dropTrailing p (c :: cs) = c :: dropTrailing p cs := by
  simp only [dropTrailing]
  by_cases h : (dropTrailing p cs).isEmpty && p c
  · simp [h]
  · simp [h]

theorem mem_dropTrailing {p : Char → Bool} :
    ∀ {l : List Char} {c : Char}, c ∈ dropTrailing p l → c ∈ l := by
  intro l
  induction l with
  | nil => intro c h; simp [dropTrailing] at h
  | cons a as ih =>
    intro c h
    rcases dropTrailing_eq_nil_or_cons p a as with he | he
    · rw [he] at h; simp at h
    · rw [he] at h
      rcases List.mem_cons.mp h with h1 | h1
      · exact h1 ▸ List.mem_cons_self _ _
      · exact List.mem_cons_of_mem _ (ih h1)

theorem length_dropTrailing_le {p : Char → Bool} :
    ∀ (l : List Char), (dropTrailing p l).length ≤ l.length := by
  intro l
  induction l with
  | nil => simp [dropTrailing]
  | cons a as ih =>
    rcases dropTrailing_eq_nil_or_cons p a as with he | he
    · rw [he]; simp
    · rw [he, List.length_cons, List.length_cons]
      exact Nat.succ_le_succ ih

theorem mem_dropWhile {p : Char → Bool} :
    ∀ {l : List Char} {c : Char}, c ∈ l.dropWhile p → c ∈ l := by
  intro l
  induction l with
  | nil => intro c h; simp at h
  | cons a as ih =>
    intro c h
    by_cases hp : p a = true
    · rw [List.dropWhile_cons_of_pos hp] at h
      exact List.mem_cons_of_mem _ (ih h)
    · rw [List.dropWhile_cons_of_neg (by simpa using hp)] at h
      exact h

theorem mem_pyStrip {l : List Char} {c : Char} (h : c ∈ pyStrip l) : c ∈ l :=
  mem_dropWhile (mem_dropTrailing h)

theorem length_dropWhile_le' {p : Char → Bool} (l : List Char) :
    (l.dropWhile p).length ≤ l.length := by
  induction l with
  | nil => simp
  | cons a as ih =>
    by_cases hp : p a = true
    · rw [List.dropWhile_cons_of_pos hp]
      exact Nat.le_succ_of_le ih
    · rw [List.dropWhile_cons_of_neg (by simpa using hp)]

theorem length_pyStrip_le (l : List Char) : (pyStrip l).length ≤ l.length :=
  Nat.le_trans (length_dropTrailing_le _) (length_dropWhile_le' _)

/-! ### Collapsed-whitespace lemmas -/

theorem noDoubleSpace_tail {a : Char} {l : List Char}
    (h : noDoubleSpace (a :: l) = true) : noDoubleSpace l = true := by
  cases l with
  | nil => rfl
  | cons b rest =>
    simp only [noDoubleSpace, Bool.and_eq_true] at h
    exact h.2

theorem noDoubleSpace_cons_of_headNotSpace {a : Char} {l : List Char}
    (h1 : headNotSpace l = true) (h2 : noDoubleSpace l = true) :
    noDoubleSpace (a :: l) = true := by
  cases l with
  | nil => rfl
  | cons b rest =>
    simp only [headNotSpace, Bool.not_eq_true'] at h1
    simp only [noDoubleSpace, Bool.and_eq_true, Bool.not_eq_true', h1,
      Bool.and_false]
    exact ⟨trivial, h2⟩

theorem noDoubleSpace_cons_of_notSpace {a : Char} {l : List Char}
    (h1 : pyIsSpace a = false) (h2 : noDoubleSpace l = true) :
    noDoubleSpace (a :: l) = true := by
  cases l with
  | nil => rfl
  | cons b rest =>
    simp only [noDoubleSpace, Bool.and_eq_true, Bool.not_eq_true', h1,
      Bool.false_and]
    exact ⟨trivial, h2⟩

theorem collapse_space_noDoubleSpace :
    ∀ (l : List Char),
      (noDoubleSpace (collapse pyIsSpace ' ' l true) = true ∧
        headNotSpace (collapse pyIsSpace ' ' l true) = true) ∧
      noDoubleSpace (collapse pyIsSpace ' ' l false) = true := by
  intro l
  induction l with
  | nil => exact ⟨⟨rfl, rfl⟩, rfl⟩
  | cons a as ih =>
    by_cases hp : pyIsSpace a = true
    · constructor
      · simpa only [collapse, hp, if_true] using ih.1
      · simp only [collapse, hp, if_true]
        exact noDoubleSpace_cons_of_headNotSpace ih.1.2 ih.1.1
    · have hp' : pyIsSpace a = false := by simpa using hp
      constructor
      · constructor
        · simp only [collapse, hp', Bool.false_eq_true, if_false]
          exact noDoubleSpace_cons_of_notSpace hp' ih.2
        · simp [collapse, hp', headNotSpace]
      · simp only [collapse, hp', Bool.false_eq_true, if_false]
        exact noDoubleSpace_cons_of_notSpace hp' ih.2

theorem noDoubleSpace_take :
    ∀ (l : List Char) (n : Nat), noDoubleSpace l = true →
      noDoubleSpace (l.take n) = true := by
  intro l
  induction l with
  | nil => intro n _; cases n <;> rfl
  | cons a as ih =>
    intro n h
    cases n with
    | zero => rfl
    | succ m =>
      cases as with
      | nil => cases m <;> rfl
      | cons b rest =>
        cases m with
        | zero => rfl
        | succ k =>
          simp only [List.take_succ_cons]
          simp only [noDoubleSpace, Bool.and_eq_true] at h
          have ht : noDoubleSpace ((b :: rest).take (k + 1)) = true :=
            ih (k + 1) h.2
          simp only [List.take_succ_cons] at ht
          simp only [noDoubleSpace, Bool.and_eq_true]
          exact ⟨h.1, ht⟩

theorem noDoubleSpace_dropWhile {p : Char → Bool} :
    ∀ (l : List Char), noDoubleSpace l = true →
      noDoubleSpace (l.dropWhile p) = true := by
  intro l
  induction l with
  | nil => intro _; rfl
  | cons a as ih =>
    intro h
    by_cases hp : p a = true
    · rw [List.dropWhile_cons_of_pos hp]
      exact ih (noDoubleSpace_tail h)
    · rw [List.dropWhile_cons_of_neg (by simpa using hp)]
      exact h

theorem noDoubleSpace_dropTrailing {p : Char → Bool} :
    ∀ (l : List Char), noDoubleSpace l = true →
      noDoubleSpace (dropTrailing p l) = true := by
  intro l
  induction l with
  | nil => intro _; rfl
  | cons a as ih =>
    intro h
    rcases dropTrailing_eq_nil_or_cons p a as with he | he
    · rw [he]; rfl
    · rw [he]
      cases as with
      | nil => simp [dropTrailing]; rfl
      | cons b rest =>
        have htail : noDoubleSpace (dropTrailing p (b :: rest)) = true :=
          ih (noDoubleSpace_tail h)
        rcases dropTrailing_eq_nil_or_cons p b rest with he2 | he2
        · rw [he2]; rfl
        · rw [he2]
          rw [he2] at htail
          simp only [noDoubleSpace, Bool.and_eq_true] at h ⊢
          exact ⟨h.1, htail⟩

theorem noDoubleSpace_pyStrip {l : List Char} (h : noDoubleSpace l = true) :
    noDoubleSpace (pyStrip l) = true :=
  noDoubleSpace_dropTrailing _ (noDoubleSpace_dropWhile _ h)

theorem mem_take' {c : Char} :
    ∀ {l : List Char} {n : Nat}, c ∈ l.take n → c ∈ l := by
  intro l
  induction l with
  | nil => intro n h; simp at h
  | cons a as ih =>
    intro n h
    cases n with
    | zero => simp at h
    | succ m =>
      rw [List.take_succ_cons] at h
      rcases List.mem_cons.mp h with h1 | h1
      · exact h1 ▸ List.mem_cons_self _ _
      · exact List.mem_cons_of_mem _ (ih h1)

theorem sanitizeChars_spec (name : List Char) :
    (sanitizeChars name "file".data).length ≤ 150 ∧
    (∀ c ∈ sanitizeChars name "file".data, forbiddenChar c = false) ∧
    noDoubleSpace (sanitizeChars name "file".data) = true := by
  unfold sanitizeChars
  set n0 := if name.isEmpty then "file".data else pyStrip name with hn0
  set n1 := collapse forbiddenChar '_' n0 false with hn1
  set n2 := collapse pyIsSpace ' ' n1 false with hn2
  set n3 := pyStrip (n2.take 150) with hn3
  by_cases he : n3.isEmpty = true
  · simp only [he, if_true]
    refine ⟨by decide, ?_, by decide⟩
    intro c hc
    fin_cases hc <;> decide
  · simp only [he, Bool.false_eq_true, if_false]
    refine ⟨?_, ?_, ?_⟩
    · calc n3.length ≤ (n2.take 150).length := length_pyStrip_le _
        _ ≤ 150 := by
          rw [List.length_take]
          exact Nat.min_le_left _ _
    · intro c hc
      have hc2 : c ∈ n2 := mem_take' (mem_pyStrip hc)
      rcases mem_collapse hc2 with h | ⟨h, _⟩
      · subst h; decide
      · rcases mem_collapse h with h1 | ⟨_, h2⟩
        · subst h1; decide
        · exact h2
    · exact noDoubleSpace_pyStrip
        (noDoubleSpace_take _ _ (collapse_space_noDoubleSpace n1).2)

/-- C4: `sanitize_filename` is total and bounded — for every input string
(including empty, all-whitespace and all-forbidden strings) the result with
the source's default `"file"` has length at most 150, contains none of the
forbidden path characters `< > : " / \ | ? *`, and has every maximal run of
whitespace collapsed (no two adjacent whitespace characters). -/
theorem C4_sanitize_filename_total_bounded (name : String) :
    (sanitize_filename name "file").data.length ≤ 150 ∧
    (∀ c ∈ (sanitize_filename name "file").data, forbiddenChar c = false) ∧
    noDoubleSpace (sanitize_filename name "file").data = true :=
  sanitizeChars_spec name.data

/-! ### Field extractor (`collect_table_rows_fast` in `fda_optimized.py`) -/

/-- Python's `str.strip()` on `String`. -/
def pyStripStr (s : String) : String := ⟨pyStrip s.data⟩

/-- Substring containment on character lists. -/
def hasSub : List Char → List Char → Bool
  | [], pat => pat.isEmpty
  | c :: tl, pat => pat.isPrefixOf (c :: tl) || hasSub tl pat

/-- Python's substring test `pat in s`. -/
def strContains (s pat : String) : Bool := hasSub s.data pat.data

/-- One hyperlink of a rendered row: `href` attribute and visible text. -/
structure Link where
  href : String
  text : String
deriving DecidableEq

/-- The row-entry dict built by `collect_table_rows_fast`. -/
structure RowEntry where
  title : String
  detail_url : String
  download_url : String
  date : String
  center : String
  topic : String
  status : String
  comment : String
deriving DecidableEq

def emptyRowEntry : RowEntry := ⟨"", "", "", "", "", "", "", ""⟩

/-- The body of the `for link in all_links` loop:

    if "/media/" in href and "/download" in href:
        entry["download_url"] = href
    elif "/guidance/" in href or "/regulatory-information/" in href:
        if not entry["title"] and text:
            entry["title"] = text
            entry["detail_url"] = href
    elif "fda.gov" in href and text and not entry["title"]:
        entry["title"] = text
        entry["detail_url"] = href
-/
def classifyLink (e : RowEntry) (lk : Link) : RowEntry :=
  if strContains lk.href "/media/" = true ∧ strContains lk.href "/download" = true then
    { e with download_url := lk.href }
  else if strContains lk.href "/guidance/" = true ∨
      strContains lk.href "/regulatory-information/" = true then
    if e.title = "" ∧ pyStripStr lk.text ≠ "" then
      { e with title := pyStripStr lk.text, detail_url := lk.href }
    else e
  else if strContains lk.href "fda.gov" = true ∧ pyStripStr lk.text ≠ "" ∧
      e.title = "" then
    { e with title := pyStripStr lk.text, detail_url := lk.href }
  else e

/-- The whole link-classification loop over a row's hyperlinks, in order. -/
def processLinks (e : RowEntry) (links : List Link) : RowEntry :=
  links.foldl classifyLink e

/-- A link qualifying as a download reference (media segment + download
suffix). -/
def isDownloadLink (lk : Link) : Bool :=
  strContains lk.href "/media/" && strContains lk.href "/download"

/-- A link that sets the title/detail fields when the title is still empty:
not a download reference, of guidance/regulatory-information/fda.gov shape,
with non-empty stripped text. -/
def isTitleLink (lk : Link) : Bool :=
  !isDownloadLink lk &&
  (strContains lk.href "/guidance/" || strContains lk.href "/regulatory-information/" ||
    strContains lk.href "fda.gov") &&
  (pyStripStr lk.text != "")

theorem classifyLink_download_url (e : RowEntry) (lk : Link) :
    (classifyLink e lk).download_url =
      if isDownloadLink lk = true then lk.href else e.download_url := by
  by_cases h1 : strContains lk.href "/media/" = true ∧
      strContains lk.href "/download" = true
  · have hD : isDownloadLink lk = true := by
      simp [isDownloadLink, Bool.and_eq_true, h1.1, h1.2]
    simp [classifyLink, h1, hD]
  · have hD : ¬(isDownloadLink lk = true) := by
      rw [isDownloadLink, Bool.and_eq_true]; exact h1
    rw [if_neg hD]
    unfold classifyLink
    rw [if_neg h1]
    split
    · split <;> rfl
    · split <;> rfl

theorem classifyLink_title_of_ne {e : RowEntry} (h : e.title ≠ "") (lk : Link) :
    (classifyLink e lk).title = e.title ∧
    (classifyLink e lk).detail_url = e.detail_url := by
  unfold classifyLink
  split
  · exact ⟨rfl, rfl⟩
  · split
    · rw [if_neg (fun hc => h hc.1)]
      exact ⟨rfl, rfl⟩
    · split
      · next hc => exact absurd hc.2.2 h
      · exact ⟨rfl, rfl⟩

theorem processLinks_title_of_ne :
    ∀ (links : List Link) (e : RowEntry), e.title ≠ "" →
      (processLinks e links).title = e.title ∧
      (processLinks e links).detail_url = e.detail_url := by
  intro links
  induction links with
  | nil => intro e _; exact ⟨rfl, rfl⟩
  | cons lk rest ih =>
    intro e h
    have hc := classifyLink_title_of_ne h lk
    have h2 : (classifyLink e lk).title ≠ "" := by rw [hc.1]; exact h
    have hrest := ih (classifyLink e lk) h2
    simp only [processLinks, List.foldl_cons] at hrest ⊢
    exact ⟨by rw [hrest.1, hc.1], by rw [hrest.2, hc.2]⟩

theorem processLinks_download_url :
    ∀ (links : List Link) (e : RowEntry),
      (processLinks e links).download_url =
        match links.reverse.find? isDownloadLink with
        | some lk => lk.href
        | none => e.download_url := by
  intro links
  induction links with
  | nil => intro e; rfl
  | cons lk rest ih =>
    intro e
    simp only [processLinks, List.foldl_cons, List.reverse_cons]
    rw [List.find?_append]
    have hstep := ih (classifyLink e lk)
    simp only [processLinks] at hstep
    rw [hstep]
    cases hfind : rest.reverse.find? isDownloadLink with
    | some x => rfl
    | none =>
      rw [classifyLink_download_url]
      cases hD : isDownloadLink lk with
      | true => simp [List.find?, hD]
      | false => simp [List.find?, hD]

theorem processLinks_title :
    ∀ (links : List Link) (e : RowEntry), e.title = "" →
      (processLinks e links).title =
        (match links.find? isTitleLink with
         | some lk => pyStripStr lk.text
         | none => "") ∧
      (processLinks e links).detail_url =
        (match links.find? isTitleLink with
         | some lk => lk.href
         | none => e.detail_url) := by
  intro links
  induction links with
  | nil => intro e h; exact ⟨h, rfl⟩
  | cons lk rest ih =>
    intro e h
    by_cases hdl : strContains lk.href "/media/" = true ∧
        strContains lk.href "/download" = true
    · have hT : isTitleLink lk = false := by
        simp [isTitleLink, isDownloadLink, Bool.and_eq_true, hdl.1, hdl.2]
      have he' : classifyLink e lk = { e with download_url := lk.href } := by
        rw [classifyLink, if_pos hdl]
      simp only [processLinks, List.foldl_cons, he', List.find?, hT]
      exact ih _ h
    · have hD : isDownloadLink lk = false := by
        refine Bool.eq_false_iff.mpr (fun hx => hdl ?_)
        rw [isDownloadLink, Bool.and_eq_true] at hx
        exact hx
      by_cases hg : strContains lk.href "/guidance/" = true ∨
          strContains lk.href "/regulatory-information/" = true
      · by_cases ht : pyStripStr lk.text ≠ ""
        · have he' : classifyLink e lk =
              { e with title := pyStripStr lk.text, detail_url := lk.href } := by
            rw [classifyLink, if_neg hdl, if_pos hg, if_pos ⟨h, ht⟩]
          have hT : isTitleLink lk = true := by
            rcases hg with hg | hg <;>
              simp [isTitleLink, hD, hg, bne_iff_ne, ht]
          have hne : (classifyLink e lk).title ≠ "" := by rw [he']; exact ht
          have hp := processLinks_title_of_ne rest _ hne
          rw [he'] at hp
          simp only [processLinks] at hp
          simp only [processLinks, List.foldl_cons, he', List.find?, hT]
          exact ⟨hp.1, hp.2⟩
        · have htext : pyStripStr lk.text = "" := not_not.mp ht
          have he' : classifyLink e lk = e := by
            rw [classifyLink, if_neg hdl, if_pos hg, if_neg (fun hc => ht hc.2)]
          have hT : isTitleLink lk = false := by
            simp [isTitleLink, htext]
          simp only [processLinks, List.foldl_cons, he', List.find?, hT]
          exact ih e h
      · have hg1 : strContains lk.href "/guidance/" = false :=
          Bool.eq_false_iff.mpr (fun hx => hg (Or.inl hx))
        have hg2 : strContains lk.href "/regulatory-information/" = false :=
          Bool.eq_false_iff.mpr (fun hx => hg (Or.inr hx))
        by_cases hf : strContains lk.href "fda.gov" = true ∧
            pyStripStr lk.text ≠ "" ∧ e.title = ""
        · have he' : classifyLink e lk =
              { e with title := pyStripStr lk.text, detail_url := lk.href } := by
            rw [classifyLink, if_neg hdl, if_neg hg, if_pos hf]
          have hT : isTitleLink lk = true := by
            simp [isTitleLink, hD, hg1, hg2, hf.1, bne_iff_ne, hf.2.1]
          have hne : (classifyLink e lk).title ≠ "" := by rw [he']; exact hf.2.1
          have hp := processLinks_title_of_ne rest _ hne
          rw [he'] at hp
          simp only [processLinks] at hp
          simp only [processLinks, List.foldl_cons, he', List.find?, hT]
          exact ⟨hp.1, hp.2⟩
        · have he' : classifyLink e lk = e := by
            rw [classifyLink, if_neg hdl, if_neg hg, if_neg hf]
          have hT : isTitleLink lk = false := by
            cases hfda : strContains lk.href "fda.gov" with
            | false => simp [isTitleLink, hg1, hg2, hfda]
            | true =>
              have htext : pyStripStr lk.text = "" := by
                by_contra hx
                exact hf ⟨hfda, hx, h⟩
              simp [isTitleLink, hg1, hg2, hfda, htext]
          simp only [processLinks, List.foldl_cons, he', List.find?, hT]
          exact ih e h

/-- C3 (amended): link classification of a row is LAST-match for the download
class — the final qualifying `/media/…/download` link determines
`download_url`, each later qualifying link overwriting earlier ones — and
first-match for the title/detail class: the first non-download link of
guidance/regulatory-information/fda.gov shape with non-empty text determines
`title` and `detail_url`, later candidates being ignored. -/
theorem C3_link_classification (e : RowEntry) (links : List Link) :
    ((processLinks e links).download_url =
      match links.reverse.find? isDownloadLink with
      | some lk => lk.href
      | none => e.download_url) ∧
    (e.title = "" →
      (processLinks e links).title =
        (match links.find? isTitleLink with
         | some lk => pyStripStr lk.text
         | none => "") ∧
      (processLinks e links).detail_url =
        (match links.find? isTitleLink with
         | some lk => lk.href
         | none => e.detail_url)) :=
  ⟨processLinks_download_url links e, fun h => processLinks_title links e h⟩

/-- C3 witness: a concrete row where the first qualifying title link sets
the title. -/
theorem C3_link_classification_witness :
    (processLinks emptyRowEntry
        [⟨"https://www.fda.gov/guidance/doc1", " Title One "⟩,
         ⟨"https://www.fda.gov/media/1/download", ""⟩]).title = "Title One" := by
  have h := (C3_link_classification emptyRowEntry
    [⟨"https://www.fda.gov/guidance/doc1", " Title One "⟩,
     ⟨"https://www.fda.gov/media/1/download", ""⟩]).2 rfl
  rw [h.1]
  decide

/-- C3 counterexample: with two download-qualifying links in one row, the
SECOND link's href is the one stored in `download_url`, refuting the claimed
first-match policy for the download class. -/
theorem C3_counterexample :
    (processLinks emptyRowEntry
        [⟨"/media/111/download", "a"⟩, ⟨"/media/222/download", "b"⟩]).download_url
      = "/media/222/download" ∧
    ¬((processLinks emptyRowEntry
        [⟨"/media/111/download", "a"⟩, ⟨"/media/222/download", "b"⟩]).download_url
      = "/media/111/download") := by
  exact ⟨by decide, by decide⟩

/-! ### Whole-row extraction (`collect_table_rows_fast`) -/

/-- Consume `\d{1,2}/` from the front of the list (the regex engine first
tries two digits, then backtracks to one). -/
def dSlash : List Char → Option (List Char)
  | a :: b :: c :: rest =>
    if a.isDigit && b.isDigit && (c == '/') then some rest
    else if a.isDigit && (b == '/') then some (c :: rest)
    else none
  | [a, b] => if a.isDigit && (b == '/') then some [] else none
  | _ => none

/-- Four leading digits (any tail is allowed: `re.match` is anchored only at
the start). -/
def d4 : List Char → Bool
  | a :: b :: c :: d :: _ => a.isDigit && b.isDigit && c.isDigit && d.isDigit
  | _ => false

/-- Test `re.match(r'\d{1,2}/\d{1,2}/\d{4}', text)` as a boolean. -/
def dateMatch (s : String) : Bool :=
  match dSlash s.data with
  | none => false
  | some r1 =>
    match dSlash r1 with
    | none => false
    | some r2 => d4 r2

/-- One iteration of the `for cell in cells` loop extracting date / status /
comment (first matching cell wins per field). -/
def scanCell (e : RowEntry) (cellText : String) : RowEntry :=
  if dateMatch (pyStripStr cellText) = true ∧ e.date = "" then
    { e with date := pyStripStr cellText }
  else if (pyStripStr cellText = "Final" ∨ pyStripStr cellText = "Draft") ∧
      e.status = "" then
    { e with status := pyStripStr cellText }
  else if (pyStripStr cellText = "Yes" ∨ pyStripStr cellText = "No") ∧
      e.comment = "" then
    { e with comment := pyStripStr cellText }
  else e

/-- One rendered table row: the text of its `td` cells and its hyperlinks. -/
structure Row where
  cells : List String
  links : List Link

/-- Expression `cells[1].text.strip().split('\n')[0]`. -/
def firstLine (s : String) : String :=
  ⟨(pyStrip s.data).takeWhile (fun c => !(c == '\n'))⟩

/-- The entry after the link-classification loop. -/
def rowAfterLinks (row : Row) : RowEntry := processLinks emptyRowEntry row.links

/-- The entry after the cell-text title fallback. -/
def rowWithTitle (row : Row) : RowEntry :=
  if (rowAfterLinks row).title = "" then
    { rowAfterLinks row with title := firstLine (row.cells.getD 1 "") }
  else rowAfterLinks row

/-- The entry after the date/status/comment cell scan. -/
def rowScanned (row : Row) : RowEntry := row.cells.foldl scanCell (rowWithTitle row)

/-- Extraction of at most one entry from one row (`None` both for a row with
fewer than two cells and for a row yielding no title). -/
def processRow (row : Row) : Option RowEntry :=
  if row.cells.length < 2 then none
  else if (rowScanned row).title = "" then none
  else some (rowScanned row)

/-- Function `collect_table_rows_fast`: per-row extraction over the page's rows,
keeping only rows that produced an entry. -/
def collect_table_rows_fast (rows : List Row) : List RowEntry :=
  rows.filterMap processRow

theorem processRow_some_title {row : Row} {en : RowEntry}
    (h : processRow row = some en) : en.title ≠ "" := by
  unfold processRow at h
  by_cases hc : row.cells.length < 2
  · rw [if_pos hc] at h; exact absurd h (by simp)
  · rw [if_neg hc] at h
    by_cases hT : (rowScanned row).title = ""
    · rw [if_pos hT] at h; exact absurd h (by simp)
    · rw [if_neg hT] at h
      injection h with h
      exact h ▸ hT

/-- C9: the field extractor is total on arbitrary row structures — it always
returns a (possibly empty) list — every returned entry has a non-empty title,
and a malformed row (fewer than two cells) is skipped, contributing
nothing. -/
theorem C9_extractor_safe :
    (∀ (rows : List Row), ∀ en ∈ collect_table_rows_fast rows, en.title ≠ "") ∧
    (∀ (row : Row) (rows : List Row), row.cells.length < 2 →
      collect_table_rows_fast (row :: rows) = collect_table_rows_fast rows) := by
  constructor
  · intro rows en hmem
    rcases List.mem_filterMap.mp hmem with ⟨row, _, hrow⟩
    exact processRow_some_title hrow
  · intro row rows hlen
    have hnone : processRow row = none := by
      unfold processRow; rw [if_pos hlen]
    unfold collect_table_rows_fast
    simp [List.filterMap_cons, hnone]

/-- C9 witness: a malformed single-cell row is skipped while a well-formed
row still yields its entry. -/
theorem C9_extractor_safe_witness :
    collect_table_rows_fast [⟨["only one cell"], []⟩, ⟨["c0", "Doc Title"], []⟩] =
      collect_table_rows_fast [⟨["c0", "Doc Title"], []⟩] :=
  C9_extractor_safe.2 ⟨["only one cell"], []⟩ _ (by decide)

/-! ### Deduplicator (`main` in `fda_optimized.py`) -/

/-- The run-wide dedupe state: the `seen_titles` key set and the ordered
`all_entries` collection. -/
structure DedupState where
  seen : List String
  entries : List RowEntry

/-- The dedupe key `f"{entry['title']}|{entry['date']}"`. -/
def dedupeKey (e : RowEntry) : String := e.title ++ "|" ++ e.date

/-- One observation step of the dedupe filter in `main`: append the entry to
the run-wide collection only when the `(title, date)` key is new; report
whether it was newly added. -/
def observe (st : DedupState) (e : RowEntry) : Bool × DedupState :=
  if st.seen.contains (dedupeKey e) = true then (false, st)
  else (true, ⟨dedupeKey e :: st.seen, st.entries ++ [e]⟩)

/-- C2: deduplication is idempotent — after any observation of `e₁`, a second
observation of any entry with the same `(title, date)` key is rejected and
leaves the collection and the seen-key set unchanged; moreover the pair of
observations appends at most one entry to the collection. -/
theorem C2_dedupe_idempotent (st : DedupState) (e₁ e₂ : RowEntry)
    (hkey : dedupeKey e₁ = dedupeKey e₂) :
    observe (observe st e₁).2 e₂ = (false, (observe st e₁).2) ∧
    ((observe st e₁).2).entries.length ≤ st.entries.length + 1 := by
  unfold observe
  by_cases h1 : st.seen.contains (dedupeKey e₁) = true
  · rw [if_pos h1]
    simp only
    rw [← hkey, if_pos h1]
    exact ⟨rfl, Nat.le_succ _⟩
  · rw [if_neg h1]
    simp only
    have hc : (dedupeKey e₁ :: st.seen).contains (dedupeKey e₂) = true := by
      rw [← hkey]
      simp [List.contains_cons]
    rw [if_pos hc]
    refine ⟨rfl, ?_⟩
    simp

/-- C2 witness: concrete second observation of an equal-keyed entry is a
no-op. -/
theorem C2_dedupe_idempotent_witness :
    observe (observe ⟨[], []⟩ ⟨"T", "", "", "1/2/2020", "", "", "", ""⟩).2
        ⟨"T", "d", "u", "1/2/2020", "", "", "", ""⟩ =
      (false, (observe ⟨[], []⟩ ⟨"T", "", "", "1/2/2020", "", "", "", ""⟩).2) :=
  (C2_dedupe_idempotent ⟨[], []⟩ _ _ (by decide)).1

/-! ### Filesystem and network model for the download orchestrator -/

/-- The filesystem fragment the downloader touches: a finite map from file
paths to file sizes in bytes (`st_size`); a path absent from the map does not
exist. -/
abbrev FS := List (String × Nat)

/-- Size `filepath.stat().st_size` when the file exists. -/
def fsSize (fs : FS) (p : String) : Option Nat :=
  (fs.find? (fun kv => kv.1 == p)).map (fun kv => kv.2)

/-- Effect of `open(filepath, "wb")` plus a write of an `n`-byte body: truncate/replace. -/
def fsWrite (fs : FS) (p : String) (n : Nat) : FS :=
  (p, n) :: fs.filter (fun kv => !(kv.1 == p))

/-- Effect of `filepath.unlink(missing_ok=True)`. -/
def fsUnlink (fs : FS) (p : String) : FS :=
  fs.filter (fun kv => !(kv.1 == p))

/-- Test `filepath.exists() and filepath.stat().st_size > 1000`. -/
def validFile (fs : FS) (p : String) : Bool :=
  match fsSize fs p with
  | some n => decide (1000 < n)
  | none => false

/-- Observable outcome of one `session.get` attempt: an HTTP response whose
body, when accepted, has `size` bytes; or an exception (connection error,
timeout, mid-stream failure) that left `written` bytes on disk when the
failure happened while streaming the body. -/
inductive FetchOutcome where
  | resp (status : Nat) (size : Nat)
  | exc (msg : String) (written : Option Nat)

/-- The `(success, message)` pair returned by the per-task download
functions. -/
structure DLResult where
  success : Bool
  message : String
deriving DecidableEq

/-- The fields of an entry dict that the download functions read. -/
structure DLEntry where
  title : String
  download_url : String
deriving DecidableEq

/-- Format `f"{index:04d}"`. -/
def formatIdx (n : Nat) : String :=
  if n < 10000 then
    ⟨[Nat.digitChar (n / 1000 % 10), Nat.digitChar (n / 100 % 10),
      Nat.digitChar (n / 10 % 10), Nat.digitChar (n % 10)]⟩
  else Nat.repr n

/-- Filename `f"{index:04d}_{sanitize_filename(title)}.pdf"`. -/
def downloadFilename (index : Nat) (title : String) : String :=
  formatIdx index ++ "_" ++ sanitize_filename title "file" ++ ".pdf"

/-- The `for attempt in range(3)` retry loop of `download_file_with_session`
(`fda_optimized.py`), run over the list of remaining attempt numbers:
statuses 200/301/302 stream the body to disk and re-validate its size
(undersized files are deleted and the attempt failed); statuses ≥ 400 raise
`HTTPError`, whose handler on the last attempt re-checks for a valid file
before failing with `HTTP <code>`; other statuses fall through to the next
attempt; generic exceptions behave like `HTTPError` with the truncated
message; a completed loop performs the post-loop final existence/size
check.  Also returns the final filesystem and the number of fetches
performed. -/
def dlGo (f : String) (net : Nat → FetchOutcome) :
    List Nat → FS → Nat → DLResult × FS × Nat
  | [], fs, fetches =>
    (if validFile fs f = true then ⟨true, f⟩ else ⟨false, "Failed"⟩, fs, fetches)
  | attempt :: rest, fs, fetches =>
    match net attempt with
    | .resp status size =>
      if status = 200 ∨ status = 301 ∨ status = 302 then
        if 1000 < size then (⟨true, f⟩, fsWrite fs f size, fetches + 1)
        else dlGo f net rest (fsUnlink (fsWrite fs f size) f) (fetches + 1)
      else if 400 ≤ status then
        if attempt < 2 then dlGo f net rest fs (fetches + 1)
        else if validFile fs f = true then (⟨true, f⟩, fs, fetches + 1)
        else (⟨false, "HTTP " ++ Nat.repr status⟩, fs, fetches + 1)
      else dlGo f net rest fs (fetches + 1)
    | .exc msg written =>
      if attempt < 2 then
        dlGo f net rest (match written with
          | some n => fsWrite fs f n
          | none => fs) (fetches + 1)
      else if validFile (match written with
          | some n => fsWrite fs f n
          | none => fs) f = true then
        (⟨true, f⟩, (match written with
          | some n => fsWrite fs f n
          | none => fs), fetches + 1)
      else
        (⟨false, ⟨msg.data.take 30⟩⟩, (match written with
          | some n => fsWrite fs f n
          | none => fs), fetches + 1)

/-- Function `download_file_with_session` (`fda_optimized.py`): skip URL-less tasks,
short-circuit when a plausible (> 1000 byte) file already exists, otherwise
run the three-attempt retry loop. -/
def download_file_with_session (entry : DLEntry) (fs : FS)
    (net : Nat → FetchOutcome) (index : Nat) : DLResult × FS × Nat :=
  if entry.download_url = "" then (⟨false, "No URL"⟩, fs, 0)
  else if validFile fs (downloadFilename index entry.title) = true then
    (⟨true, "Exists"⟩, fs, 0)
  else dlGo (downloadFilename index entry.title) net [0, 1, 2] fs 0

/-- Sequential model of the download phase over a task list of
`(sequenceIndex, entry)` pairs; `nets k` is the network behaviour seen by
the k-th task.  Returns the per-task results in order, the final filesystem,
and the total number of network fetches. -/
def runPhaseAux (nets : Nat → Nat → FetchOutcome) :
    List (Nat × DLEntry) → FS → Nat → List DLResult × FS × Nat
  | [], fs, _ => ([], fs, 0)
  | (idx, e) :: rest, fs, pos =>
    let r := download_file_with_session e fs (nets pos) idx
    let rr := runPhaseAux nets rest r.2.1 (pos + 1)
    (r.1 :: rr.1, rr.2.1, r.2.2 + rr.2.2)

def runPhase (tasks : List (Nat × DLEntry)) (nets : Nat → Nat → FetchOutcome)
    (fs : FS) : List DLResult × FS × Nat :=
  runPhaseAux nets tasks fs 0

/-! ### Filesystem lemmas -/

theorem fsSize_write_self (fs : FS) (p : String) (n : Nat) :
    fsSize (fsWrite fs p n) p = some n := by
  simp [fsSize, fsWrite, List.find?]

theorem fsSize_filter_ne {p q : String} (h : q ≠ p) :
    ∀ (fs : FS), fsSize (fs.filter (fun kv => !(kv.1 == p))) q = fsSize fs q := by
  intro fs
  induction fs with
  | nil => rfl
  | cons kv rest ih =>
    cases hk : kv.1 == p with
    | true =>
      have hkp : kv.1 = p := eq_of_beq hk
      have hkq : (kv.1 == q) = false := by
        rw [hkp]
        exact beq_eq_false_iff_ne.mpr (fun hpq => h hpq.symm)
      simp only [List.filter_cons, hk, Bool.not_true, Bool.false_eq_true, if_false]
      rw [ih]
      simp only [fsSize, List.find?_cons, hkq, cond_false]
    | false =>
      simp only [List.filter_cons, hk, Bool.not_false, if_true]
      cases hkq : kv.1 == q with
      | true =>
        simp [fsSize, List.find?_cons, hkq]
      | false =>
        simp only [fsSize, List.find?_cons, hkq, cond_false]
        exact ih

theorem fsSize_unlink_ne {p q : String} (h : q ≠ p) (fs : FS) :
    fsSize (fsUnlink fs p) q = fsSize fs q :=
  fsSize_filter_ne h fs

theorem fsSize_write_ne {p q : String} (h : q ≠ p) (fs : FS) (n : Nat) :
    fsSize (fsWrite fs p n) q = fsSize fs q := by
  unfold fsWrite
  have hpq : (p == q) = false := beq_eq_false_iff_ne.mpr (fun hx => h hx.symm)
  simp only [fsSize, List.find?_cons, hpq, cond_false]
  exact fsSize_filter_ne h fs

theorem fsSize_unlink_self (p : String) : ∀ (fs : FS),
    fsSize (fsUnlink fs p) p = none := by
  intro fs
  induction fs with
  | nil => rfl
  | cons kv rest ih =>
    cases hk : kv.1 == p with
    | true =>
      simp only [fsUnlink, List.filter_cons, hk, Bool.not_true, Bool.false_eq_true,
        if_false]
      exact ih
    | false =>
      simp only [fsUnlink, List.filter_cons, hk, Bool.not_false, if_true]
      simp only [fsSize, List.find?_cons, hk, cond_false]
      exact ih

theorem validFile_congr {fs fs' : FS} {q : String}
    (h : fsSize fs' q = fsSize fs q) : validFile fs' q = validFile fs q := by
  unfold validFile
  rw [h]

theorem validFile_write_self (fs : FS) (p : String) (n : Nat) :
    validFile (fsWrite fs p n) p = decide (1000 < n) := by
  unfold validFile
  rw [fsSize_write_self]

theorem validFile_unlink_self (fs : FS) (p : String) :
    validFile (fsUnlink fs p) p = false := by
  unfold validFile
  rw [fsSize_unlink_self]

/-! ### Invariants of the retry loop -/

theorem dlGo_fsSize_other (f : String) (net : Nat → FetchOutcome) {q : String}
    (hq : q ≠ f) :
    ∀ (attempts : List Nat) (fs : FS) (fetches : Nat),
      fsSize ((dlGo f net attempts fs fetches).2.1) q = fsSize fs q := by
  intro attempts
  induction attempts with
  | nil => intro fs fetches; rfl
  | cons a rest ih =>
    intro fs fetches
    cases hnet : net a with
    | resp status size =>
      simp only [dlGo, hnet]
      by_cases hst : status = 200 ∨ status = 301 ∨ status = 302
      · rw [if_pos hst]
        by_cases hsz : 1000 < size
        · rw [if_pos hsz]
          exact fsSize_write_ne hq fs size
        · rw [if_neg hsz, ih, fsSize_unlink_ne hq, fsSize_write_ne hq]
      · rw [if_neg hst]
        by_cases h4 : 400 ≤ status
        · rw [if_pos h4]
          by_cases ha : a < 2
          · rw [if_pos ha]; exact ih fs (fetches + 1)
          · rw [if_neg ha]
            by_cases hv : validFile fs f = true
            · rw [if_pos hv]
            · rw [if_neg hv]
        · rw [if_neg h4]; exact ih fs (fetches + 1)
    | exc msg written =>
      cases written with
      | some n =>
        simp only [dlGo, hnet]
        by_cases ha : a < 2
        · rw [if_pos ha, ih, fsSize_write_ne hq]
        · rw [if_neg ha]
          by_cases hv : validFile (fsWrite fs f n) f = true
          · rw [if_pos hv]; exact fsSize_write_ne hq fs n
          · rw [if_neg hv]; exact fsSize_write_ne hq fs n
      | none =>
        simp only [dlGo, hnet]
        by_cases ha : a < 2
        · rw [if_pos ha]; exact ih fs (fetches + 1)
        · rw [if_neg ha]
          by_cases hv : validFile fs f = true
          · rw [if_pos hv]
          · rw [if_neg hv]

theorem dlGo_success_iff_valid (f : String) (net : Nat → FetchOutcome) :
    ∀ (attempts : List Nat) (fs : FS) (fetches : Nat),
      ((dlGo f net attempts fs fetches).1.success = true ↔
        validFile (dlGo f net attempts fs fetches).2.1 f = true) := by
  intro attempts
  induction attempts with
  | nil =>
    intro fs fetches
    simp only [dlGo]
    by_cases hv : validFile fs f = true
    · rw [if_pos hv]; simp [hv]
    · rw [if_neg hv]; simp [hv]
  | cons a rest ih =>
    intro fs fetches
    cases hnet : net a with
    | resp status size =>
      simp only [dlGo, hnet]
      by_cases hst : status = 200 ∨ status = 301 ∨ status = 302
      · rw [if_pos hst]
        by_cases hsz : 1000 < size
        · rw [if_pos hsz]
          simp [validFile_write_self, hsz]
        · rw [if_neg hsz]; exact ih _ _
      · rw [if_neg hst]
        by_cases h4 : 400 ≤ status
        · rw [if_pos h4]
          by_cases ha : a < 2
          · rw [if_pos ha]; exact ih _ _
          · rw [if_neg ha]
            by_cases hv : validFile fs f = true
            · rw [if_pos hv]; simp [hv]
            · rw [if_neg hv]; simp [hv]
        · rw [if_neg h4]; exact ih _ _
    | exc msg written =>
      cases written with
      | some n =>
        simp only [dlGo, hnet]
        by_cases ha : a < 2
        · rw [if_pos ha]; exact ih _ _
        · rw [if_neg ha]
          by_cases hv : validFile (fsWrite fs f n) f = true
          · rw [if_pos hv]; simp [hv]
          · rw [if_neg hv]; simp [hv]
      | none =>
        simp only [dlGo, hnet]
        by_cases ha : a < 2
        · rw [if_pos ha]; exact ih _ _
        · rw [if_neg ha]
          by_cases hv : validFile fs f = true
          · rw [if_pos hv]; simp [hv]
          · rw [if_neg hv]; simp [hv]

theorem download_success_iff_valid (e : DLEntry) (fs : FS)
    (net : Nat → FetchOutcome) (idx : Nat) (hurl : e.download_url ≠ "") :
    ((download_file_with_session e fs net idx).1.success = true ↔
      validFile (download_file_with_session e fs net idx).2.1
        (downloadFilename idx e.title) = true) := by
  unfold download_file_with_session
  rw [if_neg hurl]
  by_cases hv : validFile fs (downloadFilename idx e.title) = true
  · rw [if_pos hv]; simpa using hv
  · rw [if_neg hv]
    exact dlGo_success_iff_valid _ net _ fs 0

theorem download_success_valid (e : DLEntry) (fs : FS)
    (net : Nat → FetchOutcome) (idx : Nat)
    (hs : (download_file_with_session e fs net idx).1.success = true) :
    validFile (download_file_with_session e fs net idx).2.1
      (downloadFilename idx e.title) = true := by
  by_cases hurl : e.download_url = ""
  · exfalso
    rw [download_file_with_session, if_pos hurl] at hs
    exact Bool.false_ne_true hs
  · exact (download_success_iff_valid e fs net idx hurl).mp hs

theorem download_preserves_valid (e : DLEntry) (fs : FS)
    (net : Nat → FetchOutcome) (idx : Nat) {q : String}
    (hv : validFile fs q = true) :
    validFile (download_file_with_session e fs net idx).2.1 q = true := by
  unfold download_file_with_session
  by_cases hurl : e.download_url = ""
  · rw [if_pos hurl]; exact hv
  · rw [if_neg hurl]
    by_cases hex : validFile fs (downloadFilename idx e.title) = true
    · rw [if_pos hex]; exact hv
    · rw [if_neg hex]
      by_cases hqf : q = downloadFilename idx e.title
      · rw [hqf] at hv; exact absurd hv hex
      · rw [validFile_congr (dlGo_fsSize_other _ net hqf _ fs 0)]
        exact hv

theorem runPhaseAux_preserves_valid (nets : Nat → Nat → FetchOutcome) {q : String} :
    ∀ (tasks : List (Nat × DLEntry)) (fs : FS) (pos : Nat),
      validFile fs q = true →
      validFile ((runPhaseAux nets tasks fs pos).2.1) q = true := by
  intro tasks
  induction tasks with
  | nil => intro fs pos hv; exact hv
  | cons t rest ih =>
    intro fs pos hv
    obtain ⟨idx, e⟩ := t
    simp only [runPhaseAux]
    exact ih _ _ (download_preserves_valid e fs (nets pos) idx hv)

theorem runPhaseAux_second_run (nets nets' : Nat → Nat → FetchOutcome) :
    ∀ (tasks : List (Nat × DLEntry)) (fs : FS) (pos pos' : Nat),
      (∀ r ∈ (runPhaseAux nets tasks fs pos).1, r.success = true) →
      (∀ r ∈ (runPhaseAux nets' tasks ((runPhaseAux nets tasks fs pos).2.1) pos').1,
          r = ⟨true, "Exists"⟩) ∧
      (runPhaseAux nets' tasks ((runPhaseAux nets tasks fs pos).2.1) pos').2.2 = 0 ∧
      (runPhaseAux nets' tasks ((runPhaseAux nets tasks fs pos).2.1) pos').2.1 =
        (runPhaseAux nets tasks fs pos).2.1 := by
  intro tasks
  induction tasks with
  | nil =>
    intro fs pos pos' _
    refine ⟨?_, rfl, rfl⟩
    intro r hr
    simp [runPhaseAux] at hr
  | cons t rest ih =>
    intro fs pos pos' hall
    obtain ⟨idx, e⟩ := t
    simp only [runPhaseAux] at hall ⊢
    have hs1 : (download_file_with_session e fs (nets pos) idx).1.success = true :=
      hall _ (List.mem_cons_self _ _)
    have hrest : ∀ r ∈ (runPhaseAux nets rest
        (download_file_with_session e fs (nets pos) idx).2.1 (pos + 1)).1,
        r.success = true :=
      fun r hr => hall r (List.mem_cons_of_mem _ hr)
    have hurl : e.download_url ≠ "" := by
      intro h0
      rw [download_file_with_session, if_pos h0] at hs1
      exact Bool.false_ne_true hs1
    have hv1 : validFile (download_file_with_session e fs (nets pos) idx).2.1
        (downloadFilename idx e.title) = true :=
      download_success_valid e fs (nets pos) idx hs1
    have hvfinal : validFile ((runPhaseAux nets rest
        (download_file_with_session e fs (nets pos) idx).2.1 (pos + 1)).2.1)
        (downloadFilename idx e.title) = true :=
      runPhaseAux_preserves_valid nets rest _ _ hv1
    have h2 : download_file_with_session e
        ((runPhaseAux nets rest
          (download_file_with_session e fs (nets pos) idx).2.1 (pos + 1)).2.1)
        (nets' pos') idx =
        (⟨true, "Exists"⟩,
          (runPhaseAux nets rest
            (download_file_with_session e fs (nets pos) idx).2.1 (pos + 1)).2.1,
          0) := by
      rw [download_file_with_session, if_neg hurl, if_pos hvfinal]
    have hih := ih (download_file_with_session e fs (nets pos) idx).2.1
      (pos + 1) (pos' + 1) hrest
    rw [h2]
    refine ⟨?_, ?_, ?_⟩
    · intro r hr
      rcases List.mem_cons.mp hr with hr | hr
      · exact hr
      · exact hih.1 r hr
    · simp only [hih.2.1]
    · exact hih.2.2

/-- C1 (amended): the resumability contract holds per successful task — a
task whose resolved target file already exists with size above the 1000-byte
threshold short-circuits to `(True, "Exists")` with zero network fetches; and
when EVERY task of the first run reports success, a second run of the
download phase over the same task set (with no interleaved deletions)
performs zero network fetches and reports every task as already existing.
(In the unamended claim the second part was asserted without requiring the
first run to have succeeded.) -/
theorem C1_resumability (e : DLEntry) (fs0 : FS) (net : Nat → FetchOutcome)
    (idx : Nat) (tasks : List (Nat × DLEntry))
    (nets nets' : Nat → Nat → FetchOutcome) (fs : FS) :
    (e.download_url ≠ "" →
      validFile fs0 (downloadFilename idx e.title) = true →
      download_file_with_session e fs0 net idx = (⟨true, "Exists"⟩, fs0, 0)) ∧
    ((∀ r ∈ (runPhase tasks nets fs).1, r.success = true) →
      (∀ r ∈ (runPhase tasks nets' (runPhase tasks nets fs).2.1).1,
          r = ⟨true, "Exists"⟩) ∧
      (runPhase tasks nets' (runPhase tasks nets fs).2.1).2.2 = 0) := by
  constructor
  · intro hurl hvalid
    rw [download_file_with_session, if_neg hurl, if_pos hvalid]
  · intro hall
    have h := runPhaseAux_second_run nets nets' tasks fs 0 0 hall
    exact ⟨h.1, h.2.1⟩

/-- C1 witness: a concrete valid pre-existing file short-circuits, and a
concrete all-successful first run makes the second run fetch nothing. -/
theorem C1_resumability_witness :
    download_file_with_session ⟨"t", "u"⟩ [("0001_t.pdf", 2000)]
        (fun _ => FetchOutcome.resp 200 5000) 1 =
      (⟨true, "Exists"⟩, [("0001_t.pdf", 2000)], 0) ∧
    (runPhase [(1, ⟨"t", "u"⟩)] (fun _ _ => FetchOutcome.resp 200 5000)
        (runPhase [(1, ⟨"t", "u"⟩)] (fun _ _ => FetchOutcome.resp 200 5000)
          []).2.1).2.2 = 0 := by
  constructor
  · exact (C1_resumability ⟨"t", "u"⟩ [("0001_t.pdf", 2000)]
      (fun _ => FetchOutcome.resp 200 5000) 1 []
      (fun _ _ => FetchOutcome.resp 200 5000)
      (fun _ _ => FetchOutcome.resp 200 5000) []).1
      (by decide) (by decide)
  · exact ((C1_resumability ⟨"t", "u"⟩ [] (fun _ => FetchOutcome.resp 200 5000) 1
      [(1, ⟨"t", "u"⟩)] (fun _ _ => FetchOutcome.resp 200 5000)
      (fun _ _ => FetchOutcome.resp 200 5000) []).2 (by decide)).2

/-- C1 counterexample (to the unamended claim): a task that fails on the
first run — a 404 on every attempt — is fetched again on the second run
(3 fetches, not 0) and is not reported as already existing. -/
theorem C1_counterexample :
    (runPhase [(1, ⟨"t", "u"⟩)] (fun _ _ => FetchOutcome.resp 404 0)
        (runPhase [(1, ⟨"t", "u"⟩)] (fun _ _ => FetchOutcome.resp 404 0)
          []).2.1).2.2 = 3 ∧
    ¬(∀ r ∈ (runPhase [(1, ⟨"t", "u"⟩)] (fun _ _ => FetchOutcome.resp 404 0)
        (runPhase [(1, ⟨"t", "u"⟩)] (fun _ _ => FetchOutcome.resp 404 0)
          []).2.1).1, r.message = "Exists") := by
  exact ⟨by decide, by decide⟩

/-! ### Undersized writes and the final check (C8) -/

/-- An attempt outcome that is an accepted response (status 200/301/302)
whose written body does not exceed the 1000-byte threshold. -/
def undersizedWrite : FetchOutcome → Bool
  | .resp s n => decide (s = 200 ∨ s = 301 ∨ s = 302) && decide (n ≤ 1000)
  | .exc _ _ => false

theorem fsUnlink_fsWrite_self (fs : FS) (p : String) (n : Nat) :
    fsUnlink (fsWrite fs p n) p = fsUnlink fs p := by
  unfold fsUnlink fsWrite
  rw [List.filter_cons]
  simp [List.filter_filter]

theorem dlGo_undersized_step (f : String) (net : Nat → FetchOutcome) (a : Nat)
    (rest : List Nat) (fs : FS) (fetches : Nat)
    (h : undersizedWrite (net a) = true) :
    dlGo f net (a :: rest) fs fetches =
      dlGo f net rest (fsUnlink fs f) (fetches + 1) := by
  cases hnet : net a with
  | exc m w => rw [hnet] at h; simp [undersizedWrite] at h
  | resp s n =>
    rw [hnet] at h
    simp only [undersizedWrite, Bool.and_eq_true, decide_eq_true_eq] at h
    simp only [dlGo, hnet]
    rw [if_pos h.1, if_neg (by omega : ¬1000 < n), fsUnlink_fsWrite_self]

/-- C8: for `download_file_with_session` on a fresh (no valid pre-existing
file) task with a URL: (i) when every attempt produces an accepted but
undersized write, the written file is deleted each time, every attempt counts
as failed, and the function ends with `(False, "Failed")` and no file on
disk; (ii) in general the function returns success exactly when a valid
(> 1000 byte) file is present at the target path when it returns — in
particular, after retries are exhausted the final existence/size check
decides the outcome. -/
theorem C8_undersized_and_final_check (e : DLEntry) (fs : FS)
    (net : Nat → FetchOutcome) (idx : Nat) (hurl : e.download_url ≠ "") :
    ((validFile fs (downloadFilename idx e.title) = false →
      (∀ k, k < 3 → undersizedWrite (net k) = true) →
      (download_file_with_session e fs net idx).1 = ⟨false, "Failed"⟩ ∧
      fsSize (download_file_with_session e fs net idx).2.1
        (downloadFilename idx e.title) = none)) ∧
    ((download_file_with_session e fs net idx).1.success = true ↔
      validFile (download_file_with_session e fs net idx).2.1
        (downloadFilename idx e.title) = true) := by
  constructor
  · intro hnew hund
    rw [download_file_with_session, if_neg hurl,
        if_neg (by rw [hnew]; exact Bool.false_ne_true)]
    rw [dlGo_undersized_step _ _ 0 _ _ _ (hund 0 (by omega)),
        dlGo_undersized_step _ _ 1 _ _ _ (hund 1 (by omega)),
        dlGo_undersized_step _ _ 2 _ _ _ (hund 2 (by omega))]
    simp only [dlGo]
    have hvfin : validFile
        (fsUnlink (fsUnlink (fsUnlink fs (downloadFilename idx e.title))
          (downloadFilename idx e.title)) (downloadFilename idx e.title))
        (downloadFilename idx e.title) = false :=
      validFile_unlink_self _ _
    rw [if_neg (by rw [hvfin]; exact Bool.false_ne_true)]
    exact ⟨rfl, fsSize_unlink_self _ _⟩
  · exact download_success_iff_valid e fs net idx hurl

/-- C8 witness: three undersized 200-responses end in `(False, "Failed")`
with the file deleted; and a partial 4000-byte write left by a mid-stream
exception is accepted by the final check. -/
theorem C8_undersized_and_final_check_witness :
    (download_file_with_session ⟨"t", "u"⟩ []
        (fun _ => FetchOutcome.resp 200 500) 1).1 = ⟨false, "Failed"⟩ ∧
    (download_file_with_session ⟨"t", "u"⟩ []
        (fun k => if k = 0 then FetchOutcome.exc "boom" (some 4000)
          else FetchOutcome.resp 304 0) 1).1.success = true := by
  constructor
  · exact ((C8_undersized_and_final_check ⟨"t", "u"⟩ []
      (fun _ => FetchOutcome.resp 200 500) 1 (by decide)).1
      (by decide) (fun _ _ => by decide)).1
  · exact (C8_undersized_and_final_check ⟨"t", "u"⟩ []
      (fun k => if k = 0 then FetchOutcome.exc "boom" (some 4000)
        else FetchOutcome.resp 304 0) 1 (by decide)).2.mpr (by decide)

/-! ### Reconciliation-workflow downloader (`download_file` in
`fda_retry_failed.py`) -/

/-- The `for attempt in range(2)` loop of `download_file`
(`fda_retry_failed.py`): status 200 streams and re-validates the body
(undersized files are deleted and the loop falls through to the next
attempt); status 404 returns a terminal failure immediately; any other
status retries once (attempt 0) and then fails with `HTTP <code>`;
exceptions retry once error-wise with the truncated message; a completed
loop returns `(False, "Failed")` with no final re-check. -/
def dlGoRetry (f : String) (net : Nat → FetchOutcome) :
    List Nat → FS → Nat → DLResult × FS × Nat
  | [], fs, fetches => (⟨false, "Failed"⟩, fs, fetches)
  | attempt :: rest, fs, fetches =>
    match net attempt with
    | .resp status size =>
      if status = 200 then
        if 1000 < size then (⟨true, f⟩, fsWrite fs f size, fetches + 1)
        else dlGoRetry f net rest (fsUnlink (fsWrite fs f size) f) (fetches + 1)
      else if status = 404 then
        (⟨false, "404 - PDF removed from FDA"⟩, fs, fetches + 1)
      else if attempt = 0 then dlGoRetry f net rest fs (fetches + 1)
      else (⟨false, "HTTP " ++ Nat.repr status⟩, fs, fetches + 1)
    | .exc msg written =>
      if attempt = 0 then
        dlGoRetry f net rest (match written with
          | some n => fsWrite fs f n
          | none => fs) (fetches + 1)
      else
        (⟨false, ⟨msg.data.take 25⟩⟩, (match written with
          | some n => fsWrite fs f n
          | none => fs), fetches + 1)

/-- Function `download_file` (`fda_retry_failed.py`): skip URL-less tasks,
short-circuit on an existing plausible file, otherwise run the two-attempt
retry loop. -/
def download_file (entry : DLEntry) (fs : FS) (net : Nat → FetchOutcome)
    (index : Nat) : DLResult × FS × Nat :=
  if entry.download_url = "" then (⟨false, "No URL"⟩, fs, 0)
  else if validFile fs (downloadFilename index entry.title) = true then
    (⟨true, "Exists"⟩, fs, 0)
  else dlGoRetry (downloadFilename index entry.title) net [0, 1] fs 0

/-- C5: in the reconciliation workflow's per-task download function a 404
response is a terminal failure after exactly one fetch (zero retries), while
any other non-success status on both attempts is retried up to the attempt
cap of 2 and fails with the last `HTTP <code>`. -/
theorem C5_terminal_404 (e : DLEntry) (fs : FS) (net : Nat → FetchOutcome)
    (idx : Nat) (hurl : e.download_url ≠ "")
    (hnew : validFile fs (downloadFilename idx e.title) = false) :
    (∀ sz, net 0 = FetchOutcome.resp 404 sz →
      download_file e fs net idx =
        (⟨false, "404 - PDF removed from FDA"⟩, fs, 1)) ∧
    (∀ s0 sz0 s1 sz1, net 0 = FetchOutcome.resp s0 sz0 → s0 ≠ 200 → s0 ≠ 404 →
      net 1 = FetchOutcome.resp s1 sz1 → s1 ≠ 200 → s1 ≠ 404 →
      download_file e fs net idx = (⟨false, "HTTP " ++ Nat.repr s1⟩, fs, 2)) := by
  constructor
  · intro sz hnet0
    rw [download_file, if_neg hurl,
        if_neg (by rw [hnew]; exact Bool.false_ne_true)]
    simp [dlGoRetry, hnet0]
  · intro s0 sz0 s1 sz1 hnet0 h0a h0b hnet1 h1a h1b
    rw [download_file, if_neg hurl,
        if_neg (by rw [hnew]; exact Bool.false_ne_true)]
    simp [dlGoRetry, hnet0, hnet1, h0a, h0b, h1a, h1b]

/-- C5 witness: a concrete 404 is terminal after one fetch; a concrete
pair of 500-responses exhausts both attempts. -/
theorem C5_terminal_404_witness :
    download_file ⟨"t", "u"⟩ [] (fun _ => FetchOutcome.resp 404 0) 1 =
      (⟨false, "404 - PDF removed from FDA"⟩, [], 1) ∧
    download_file ⟨"t", "u"⟩ [] (fun _ => FetchOutcome.resp 500 0) 1 =
      (⟨false, "HTTP " ++ Nat.repr 500⟩, [], 2) := by
  constructor
  · exact (C5_terminal_404 ⟨"t", "u"⟩ [] (fun _ => FetchOutcome.resp 404 0) 1
      (by decide) (by decide)).1 0 rfl
  · exact (C5_terminal_404 ⟨"t", "u"⟩ [] (fun _ => FetchOutcome.resp 500 0) 1
      (by decide) (by decide)).2 500 0 500 0 rfl (by omega) (by omega) rfl
      (by omega) (by omega)

/-! ### Batch accounting (`download_batch_parallel`) -/

/-- What `future.result()` yields for one submitted task: the download
function's `(success, message)` pair, or an exception propagated out of the
worker. -/
inductive TaskOutcome where
  | res (r : DLResult)
  | raised

/-- The three run counters of `download_batch_parallel`. -/
structure BatchResults where
  downloaded : Nat
  skipped : Nat
  failed : Nat
deriving DecidableEq

/-- Tally of one completed future: success + `"Exists"` counts skipped,
other successes count downloaded, failures and raised exceptions count
failed. -/
def tallyOutcome (acc : BatchResults) : TaskOutcome → BatchResults
  | .res r =>
    if r.success = true then
      if r.message = "Exists" then { acc with skipped := acc.skipped + 1 }
      else { acc with downloaded := acc.downloaded + 1 }
    else { acc with failed := acc.failed + 1 }
  | .raised => { acc with failed := acc.failed + 1 }

/-- The submission/collection accounting of `download_batch_parallel`:
entries without a download URL are counted skipped at submission time and
never submitted; every submitted entry's completed future (`outcome k` for
the k-th entry) is tallied exactly once. -/
def batchAux (outcome : Nat → TaskOutcome) :
    List DLEntry → Nat → BatchResults → BatchResults
  | [], _, acc => acc
  | e :: rest, pos, acc =>
    if e.download_url = "" then
      batchAux outcome rest (pos + 1) { acc with skipped := acc.skipped + 1 }
    else batchAux outcome rest (pos + 1) (tallyOutcome acc (outcome pos))

def download_batch_parallel (entries : List DLEntry)
    (outcome : Nat → TaskOutcome) : BatchResults :=
  batchAux outcome entries 0 ⟨0, 0, 0⟩

theorem tallyOutcome_sum (acc : BatchResults) (o : TaskOutcome) :
    (tallyOutcome acc o).downloaded + (tallyOutcome acc o).skipped +
      (tallyOutcome acc o).failed =
    acc.downloaded + acc.skipped + acc.failed + 1 := by
  cases o with
  | raised => simp [tallyOutcome]; omega
  | res r =>
    by_cases hs : r.success = true
    · by_cases hm : r.message = "Exists"
      · simp [tallyOutcome, hs, hm]; omega
      · simp [tallyOutcome, hs, hm]; omega
    · simp [tallyOutcome, hs]; omega

theorem batchAux_sum (outcome : Nat → TaskOutcome) :
    ∀ (entries : List DLEntry) (pos : Nat) (acc : BatchResults),
      (batchAux outcome entries pos acc).downloaded +
        (batchAux outcome entries pos acc).skipped +
        (batchAux outcome entries pos acc).failed =
      acc.downloaded + acc.skipped + acc.failed + entries.length := by
  intro entries
  induction entries with
  | nil => intro pos acc; simp [batchAux]
  | cons e rest ih =>
    intro pos acc
    by_cases hurl : e.download_url = ""
    · simp only [batchAux, if_pos hurl]
      rw [ih]
      simp
      omega
    · simp only [batchAux, if_neg hurl]
      rw [ih, tallyOutcome_sum]
      simp
      omega

/-- C10: batch accounting invariant of the parallel download orchestrator —
each entry contributes exactly one unit to exactly one of the three counters
(no-URL entries to skipped, completed `"Exists"` successes to skipped, other
successes to downloaded, failures and worker exceptions to failed), so the
counters always sum to the number of entries in the batch. -/
theorem C10_batch_accounting (entries : List DLEntry)
    (outcome : Nat → TaskOutcome) :
    (download_batch_parallel entries outcome).downloaded +
      (download_batch_parallel entries outcome).skipped +
      (download_batch_parallel entries outcome).failed = entries.length := by
  unfold download_batch_parallel
  rw [batchAux_sum]
  simp

/-! ### Sequence-index assignment (C6) -/

def ITEMS_PER_PAGE : Nat := 10

/-- Assignment `start_idx = (page_num - 1) * ITEMS_PER_PAGE + 1` from `main`. -/
def startIdx (page : Nat) : Nat := (page - 1) * ITEMS_PER_PAGE + 1

/-- Loop `for i, entry in enumerate(entries): idx = start_index + i` — the task
list submitted by `download_batch_parallel`. -/
def assignIndexes (startIndex : Nat) : List DLEntry → List (Nat × DLEntry)
  | [] => []
  | e :: rest => (startIndex, e) :: assignIndexes (startIndex + 1) rest

theorem assignIndexes_getElem :
    ∀ (entries : List DLEntry) (s i : Nat),
      (assignIndexes s entries)[i]? = entries[i]?.map (fun e => (s + i, e)) := by
  intro entries
  induction entries with
  | nil => intro s i; simp [assignIndexes]
  | cons e rest ih =>
    intro s i
    cases i with
    | zero => simp [assignIndexes]
    | succ j =>
      simp only [assignIndexes, List.getElem?_cons_succ]
      rw [ih (s + 1) j]
      have harith : s + 1 + j = s + (j + 1) := by omega
      rw [harith]

/-- C6: the sequence index of the entry at 0-based offset `i` of the batch
submitted for page `page` is `(page - 1) * ITEMS_PER_PAGE + (i + 1)`, a pure
function of the page position, so the index (and hence the filename built
from it) is identical across repeated runs. -/
theorem C6_sequence_index (page : Nat) (entries : List DLEntry) (i : Nat) :
    (assignIndexes (startIdx page) entries)[i]? =
      entries[i]?.map (fun e => ((page - 1) * ITEMS_PER_PAGE + (i + 1), e)) := by
  rw [assignIndexes_getElem]
  have harith : startIdx page + i = (page - 1) * ITEMS_PER_PAGE + (i + 1) := by
    unfold startIdx
    omega
  rw [harith]

/-! ### Reconciliation scanner (`fda_retry_failed.py`) -/

/-- The anchored regex `^\d{4}_` on a filename stem. -/
def matchesIdx4 (s : List Char) : Bool :=
  match s with
  | a :: b :: c :: d :: e :: _ =>
    a.isDigit && b.isDigit && c.isDigit && d.isDigit && (e == '_')
  | _ => false

/-- Model of `Path.stem`: the filename without its final suffix (a dot at position 0
introduces no suffix). -/
def pathStem (l : List Char) : List Char :=
  if (l.reverse.takeWhile (fun c => !(c == '.'))).length = l.reverse.length then l
  else if (l.reverse.takeWhile (fun c => !(c == '.'))).length + 1 =
      l.reverse.length then l
  else (l.reverse.drop
    ((l.reverse.takeWhile (fun c => !(c == '.'))).length + 1)).reverse

/-- Per-file computation of `scan_existing_files`: strip the `NNNN_` index
prefix when present, then lowercase and strip. -/
def scanStem (stem : List Char) : List Char :=
  if matchesIdx4 stem = true then pyStrip ((stem.drop 5).map Char.toLower)
  else pyStrip (stem.map Char.toLower)

/-- Function `scan_existing_files`: the set (modelled as a list) of normalized title
keys recovered from the pdf filenames found in the output directory. -/
def scan_existing_files (filenames : List (List Char)) : List (List Char) :=
  filenames.map (fun f => scanStem (pathStem f))

/-- Expression `sanitize_filename(title).lower().strip()` — the probe key used by
`title_exists`. -/
def sanitizedKey (title : List Char) : List Char :=
  pyStrip ((sanitizeChars title "file".data).map Char.toLower)

/-- Function `title_exists`: direct key match, else mutual-prefix match over the
first 50 characters. -/
def title_exists (title : List Char) (existing : List (List Char)) : Bool :=
  if existing.contains (sanitizedKey title) = true then true
  else
    existing.any (fun ex =>
      ((sanitizedKey title).take 50).isPrefixOf ex ||
      (ex.take 50).isPrefixOf ((sanitizedKey title).take 50))

theorem digitChar_isDigit {d : Nat} (h : d < 10) :
    (Nat.digitChar d).isDigit = true := by
  interval_cases d <;> decide

theorem contains_of_mem {l : List (List Char)} {a : List Char} (h : a ∈ l) :
    l.contains a = true := by
  induction l with
  | nil => cases h
  | cons b bs ih =>
    rcases List.mem_cons.mp h with h | h
    · subst h
      simp [List.contains_cons]
    · simp only [List.contains_cons, Bool.or_eq_true]
      exact Or.inr (ih h)

theorem pathStem_pdf (base : List Char) (hne : base ≠ []) :
    pathStem (base ++ ('.' :: 'p' :: 'd' :: 'f' :: [])) = base := by
  have hr : (base ++ ('.' :: 'p' :: 'd' :: 'f' :: [])).reverse =
      'f' :: 'd' :: 'p' :: '.' :: base.reverse := by
    rw [List.reverse_append]
    rfl
  have htw : (('f' :: 'd' :: 'p' :: '.' :: base.reverse).takeWhile
      (fun c => !(c == '.'))) = ['f', 'd', 'p'] := rfl
  have hbl : base.length ≠ 0 := fun h0 => hne (List.length_eq_zero.mp h0)
  unfold pathStem
  rw [hr, htw]
  have hc1 : ¬((['f', 'd', 'p'] : List Char).length =
      ('f' :: 'd' :: 'p' :: '.' :: base.reverse).length) := by
    simp
  have hc2 : ¬((['f', 'd', 'p'] : List Char).length + 1 =
      ('f' :: 'd' :: 'p' :: '.' :: base.reverse).length) := by
    simp only [List.length_cons, List.length_nil, List.length_reverse]
    omega
  rw [if_neg hc1, if_neg hc2]
  simp

theorem downloadFilename_data (idx : Nat) (title : String) :
    (downloadFilename idx title).data =
      ((formatIdx idx).data ++ '_' :: (sanitize_filename title "file").data) ++
        ('.' :: 'p' :: 'd' :: 'f' :: []) := by
  unfold downloadFilename
  rw [String.data_append, String.data_append, String.data_append]
  simp

theorem formatIdx_data {idx : Nat} (h : idx < 10000) :
    (formatIdx idx).data =
      [Nat.digitChar (idx / 1000 % 10), Nat.digitChar (idx / 100 % 10),
       Nat.digitChar (idx / 10 % 10), Nat.digitChar (idx % 10)] := by
  unfold formatIdx
  rw [if_pos h]

theorem matchesIdx4_filename {idx : Nat} (h : idx < 10000) (st : List Char) :
    matchesIdx4 ([Nat.digitChar (idx / 1000 % 10), Nat.digitChar (idx / 100 % 10),
      Nat.digitChar (idx / 10 % 10), Nat.digitChar (idx % 10)] ++ '_' :: st) =
      true := by
  simp only [List.cons_append, List.nil_append, matchesIdx4]
  rw [digitChar_isDigit (Nat.mod_lt _ (by omega)),
      digitChar_isDigit (Nat.mod_lt _ (by omega)),
      digitChar_isDigit (Nat.mod_lt _ (by omega)),
      digitChar_isDigit (Nat.mod_lt _ (by omega))]
  rfl

theorem scanStem_downloadFilename (idx : Nat) (title : String)
    (h : idx < 10000) :
    scanStem (pathStem (downloadFilename idx title).data) =
      sanitizedKey title.data := by
  rw [downloadFilename_data, formatIdx_data h,
      pathStem_pdf _ (by simp), scanStem,
      if_pos (matchesIdx4_filename h _)]
  have hdrop : (([Nat.digitChar (idx / 1000 % 10), Nat.digitChar (idx / 100 % 10),
      Nat.digitChar (idx / 10 % 10), Nat.digitChar (idx % 10)] ++
      '_' :: (sanitize_filename title "file").data).drop 5) =
      (sanitize_filename title "file").data := by
    simp
  rw [hdrop]
  rfl

/-- C7: reconciliation matching round-trips with the downloader's naming —
for an entry with a non-empty title whose filename (4-digit zero-padded
index, underscore, sanitized title, `.pdf`) is present in the scanned
directory, `title_exists` on the scanned inventory returns true for that
title (already by direct match), so the entry is never classified as
missing. -/
theorem C7_reconciliation_roundtrip (title : String) (idx : Nat)
    (files : List (List Char)) (htitle : title ≠ "") (hidx : idx < 10000)
    (hmem : (downloadFilename idx title).data ∈ files) :
    title_exists title.data (scan_existing_files files) = true := by
  have hkey := scanStem_downloadFilename idx title hidx
  have hmem2 : sanitizedKey title.data ∈ scan_existing_files files := by
    rw [← hkey]
    exact List.mem_map_of_mem _ hmem
  rw [title_exists, if_pos (contains_of_mem hmem2)]

/-- C7 witness: the file the downloader writes for the concrete entry
`"Doc A"` at index 7 is recognized by the scanner. -/
theorem C7_reconciliation_roundtrip_witness :
    title_exists "Doc A".data
      (scan_existing_files [(downloadFilename 7 "Doc A").data]) = true :=
  C7_reconciliation_roundtrip "Doc A" 7 [(downloadFilename 7 "Doc A").data]
    (by decide) (by decide) (List.mem_singleton.mpr rfl)

end Siro
